import Mathlib

/-
  Verification development for the comprehension-analysis core of the
  word-munch serverless repository (src/aws-lambda/concept_muncher_lambda.py
  and src/aws-lambda/cognitive_profile_lambda.py).

  Python strings are modelled as List Char, floats as exact rationals
  (or reals where square roots occur), DynamoDB tables as association
  lists, and exceptions as Except values.  Field name "end" of a segment
  is rendered as "stop" because "end" is a Lean keyword.
-/

namespace WordMunch

/-! ## Python string primitives -/

/-- Python str.strip(): remove whitespace from both ends. -/
def stripL (cs : List Char) : List Char :=
  ((cs.dropWhile Char.isWhitespace).reverse.dropWhile Char.isWhitespace).reverse

/-- Python str.split() with no argument: split on whitespace runs, dropping
empty chunks. -/
def pySplitWs (cs : List Char) : List (List Char) :=
  (cs.splitOnP Char.isWhitespace).filter (fun w => !w.isEmpty)

/-- Scan helper for pyFind: first index at or after j where pat is a prefix
of the remaining list. -/
def occAux : List Char → List Char → Nat → Option Nat
  | l, pat, j =>
    if pat.isPrefixOf l then some j
    else
      match l with
      | [] => none
      | _ :: t => occAux t pat (j + 1)

/-- Python str.find(sub, start): first occurrence index at or after start,
none standing for -1. -/
def pyFind (hay pat : List Char) (start : Nat) : Option Nat :=
  if start ≤ hay.length then occAux (hay.drop start) pat start else none

/-- Python substring containment (the "in" operator). -/
def pyContains (hay pat : List Char) : Bool :=
  (pyFind hay pat 0).isSome

/-- Python str.lower() (ASCII level). -/
def toLowerL (cs : List Char) : List Char :=
  cs.map Char.toLower

/-- Python " ".join(words). -/
def joinSpace (words : List (List Char)) : List Char :=
  List.intercalate [' '] words

/-! ## Similarity tier classification
    (_classify_similarity in concept_muncher_lambda.py) -/

/-- Source function _classify_similarity: fixed thresholds, returns
(level, color). -/
def classify_similarity (similarity : ℚ) : String × String :=
  if similarity ≥ 0.75 then ("excellent", "#059669")
  else if similarity ≥ 0.55 then ("good", "#16a34a")
  else if similarity ≥ 0.35 then ("fair", "#ca8a04")
  else if similarity ≥ 0.25 then ("partial", "#ea580c")
  else ("poor", "transparent")

/-- Numeric rank of a tier name, for stating monotonicity. -/
def tierRank (tier : String) : ℕ :=
  if tier = "poor" then 0
  else if tier = "partial" then 1
  else if tier = "fair" then 2
  else if tier = "good" then 3
  else 4

/-! ## Cosine similarity (calculate_cosine_similarity) -/

/-- Dot product of the zipped vectors, as in
sum(a * b for a, b in zip(vec1, vec2)). -/
noncomputable def dot_product (vec1 vec2 : List ℝ) : ℝ :=
  (List.zipWith (fun a b => a * b) vec1 vec2).sum

/-- math.sqrt(sum(a * a for a in v)). -/
noncomputable def magnitudeV (v : List ℝ) : ℝ :=
  Real.sqrt ((v.map (fun a => a * a)).sum)

/-- Source function calculate_cosine_similarity with its zero-magnitude
guard. -/
noncomputable def calculate_cosine_similarity (vec1 vec2 : List ℝ) : ℝ :=
  let dp := dot_product vec1 vec2
  let magnitude1 := magnitudeV vec1
  let magnitude2 := magnitudeV vec2
  if magnitude1 = 0 ∨ magnitude2 = 0 then 0
  else dp / (magnitude1 * magnitude2)

/-! ## Improvement rate (calculate_improvement_rate in
    cognitive_profile_lambda.py) -/

/-- The only record field calculate_improvement_rate reads. -/
structure CognitiveRecord where
  overall_similarity : ℚ
deriving DecidableEq, Repr

/-- Round half to even at integer precision, the tie rule of Python round. -/
def roundHalfToEven (q : ℚ) : ℤ :=
  let f := ⌊q⌋
  if q - f < 1/2 then f
  else if 1/2 < q - f then f + 1
  else if f % 2 = 0 then f else f + 1

/-- Python round(x, 1). -/
def pyRound1 (q : ℚ) : ℚ :=
  (roundHalfToEven (q * 10) : ℚ) / 10

/-- Source function calculate_improvement_rate: compare first half
(most recent) with second half (older), as a rounded percentage. -/
def calculate_improvement_rate (records : List CognitiveRecord) : ℚ :=
  if records.length < 5 then 0
  else
    let mid_point := records.length / 2
    let early_records := records.drop mid_point
    let recent_records := records.take mid_point
    let early_avg :=
      (early_records.map (fun r => r.overall_similarity)).sum / (early_records.length : ℚ)
    let recent_avg :=
      (recent_records.map (fun r => r.overall_similarity)).sum / (recent_records.length : ℚ)
    let improvement := recent_avg - early_avg
    pyRound1 (improvement * 100)

/-- Mean overall_similarity of a record list (spec phrasing). -/
def meanSimilarity (records : List CognitiveRecord) : ℚ :=
  (records.map (fun r => r.overall_similarity)).sum / (records.length : ℚ)

/-! ## Profile cache model (cognitive_profile_lambda.py) -/

/-- One DynamoDB cache item: stored payload plus write timestamp. -/
structure CacheEntry where
  data : String
  timestamp : Nat
deriving DecidableEq, Repr

/-- The cache table, keyed by cacheKey; later writes shadow earlier ones. -/
abbrev CacheTable := List (String × CacheEntry)

/-- put_item: overwrite by key. -/
def db_put (tbl : CacheTable) (key : String) (e : CacheEntry) : CacheTable :=
  (key, e) :: tbl.filter (fun p => p.1 != key)

/-- delete_item by key. -/
def db_delete (tbl : CacheTable) (key : String) : CacheTable :=
  tbl.filter (fun p => p.1 != key)

/-- get_item by key. -/
def db_get (tbl : CacheTable) (key : String) : Option CacheEntry :=
  tbl.lookup key

/-- The cache key used for a cached profile: f"profile_cache_{user_id}_{days}". -/
def profile_cache_key (user_id : String) (days : Nat) : String :=
  "profile_cache_" ++ user_id ++ "_" ++ toString days

/-- The delete loop of invalidate_user_profile_cache.  Each delete_item
carries ConditionExpression attribute_exists(cacheKey), so a missing key
raises ConditionalCheckFailedException; the single try/except wraps the
whole loop, so the first missing key aborts the remaining deletions while
the deletions already performed persist. -/
def invalidateLoop (user_id : String) : CacheTable → List Nat → CacheTable
  | tbl, [] => tbl
  | tbl, days :: rest =>
    let cache_key := profile_cache_key user_id days
    if (db_get tbl cache_key).isSome then
      invalidateLoop user_id (db_delete tbl cache_key) rest
    else tbl

/-- Source function invalidate_user_profile_cache: conditionally delete
the keys for the day windows 7, 30 and 90 in that order, stopping at the
first missing key (see invalidateLoop). -/
def invalidate_user_profile_cache (tbl : CacheTable) (user_id : String) : CacheTable :=
  invalidateLoop user_id tbl [7, 30, 90]

/-- Source function get_cached_profile: serve a cached profile only when it
was written within the last 6 hours. -/
def get_cached_profile (tbl : CacheTable) (user_id : String) (days : Nat)
    (now : Nat) : Option String :=
  match db_get tbl (profile_cache_key user_id days) with
  | some e => if now - e.timestamp < 6 * 60 * 60 then some e.data else none
  | none => none

/-- Source function cache_user_profile: store a computed profile under the
(user, days) key. -/
def cache_user_profile (tbl : CacheTable) (user_id : String) (days : Nat)
    (profile : String) (now : Nat) : CacheTable :=
  db_put tbl (profile_cache_key user_id days) ⟨profile, now⟩

/-- Source function record_analysis_result, state effect only: put the new
cognitive record, then invalidate the user profile cache. -/
def record_analysis_result (tbl : CacheTable) (user_id : String)
    (record_id : String) (payload : String) (now : Nat) : CacheTable :=
  invalidate_user_profile_cache (db_put tbl record_id ⟨payload, now⟩) user_id

/-! ## Detailed feedback synthesizer
    (get_detailed_feedback_from_claude in concept_muncher_lambda.py) -/

/-- The structured record the synthesizer returns. -/
structure FeedbackRecord where
  misunderstandings : List String
  cognitive_level : String
  actionable_suggestions : List String
  error_type : String
  bloom_taxonomy : String
deriving DecidableEq, Repr

/-- The fixed record returned when the model output fails to parse as JSON
(inner except json.JSONDecodeError branch). -/
def parseFallbackRecord : FeedbackRecord :=
  { misunderstandings := ["Need more careful understanding of key points"]
    cognitive_level := "understand"
    actionable_suggestions :=
      ["Re-read focusing on main arguments",
       "Identify key supporting evidence",
       "Note author's tone and attitude"]
    error_type := "main_idea"
    bloom_taxonomy := "understand" }

/-- The fixed record returned when the generation call itself fails
(outer except Exception branch). -/
def transportFallbackRecord : FeedbackRecord :=
  { misunderstandings := ["General comprehension gap"]
    cognitive_level := "understand"
    actionable_suggestions :=
      ["Read the text multiple times",
       "Focus on key information and connections",
       "Practice summarizing main points"]
    error_type := "comprehensive_understanding"
    bloom_taxonomy := "understand" }

/-- Source function get_detailed_feedback_from_claude.  The transport layer
is the collaborator capability: Except.error stands for any exception
raised before the inner json.loads; the parse function stands for
json.loads on the model text, none standing for json.JSONDecodeError.
Totality of this definition is the no-raise guarantee. -/
def get_detailed_feedback_from_claude (bedrockResult : Except String String)
    (parseJson : String → Option FeedbackRecord) : FeedbackRecord :=
  match bedrockResult with
  | .error _ => transportFallbackRecord
  | .ok claudeResponse =>
    match parseJson claudeResponse with
    | some fb => fb
    | none => parseFallbackRecord

/-! ## Segmenter (segment_text and helpers in concept_muncher_lambda.py) -/

/-- A produced segment; field "end" of the source is rendered "stop". -/
structure Seg where
  text : List Char
  start : Nat
  stop : Nat
  type : String
  level : String
deriving DecidableEq, Repr

/-- Which alternative of the combined phrase pattern matched. -/
inductive SepKind where
  | punct
  | conj
  | prep
  | exampleWord
deriving DecidableEq, Repr

/-- The punctuation class [,;:] of the combined pattern. -/
def puncts : List Char := [',', ';', ':']

def conjWords : List String :=
  ["and", "but", "or", "however", "therefore", "moreover", "furthermore",
   "additionally", "consequently"]

def prepWords : List String :=
  ["in", "on", "at", "by", "for", "with", "through", "during", "after",
   "before", "since", "until"]

def exampleWords : List String :=
  ["such as", "for example", "including", "like"]

/-- Alternatives of the three word-based groups, in regex alternation
order. -/
def sepWordTable : List (SepKind × String) :=
  (conjWords.map (fun w => (SepKind.conj, w)))
    ++ (prepWords.map (fun w => (SepKind.prep, w)))
    ++ (exampleWords.map (fun w => (SepKind.exampleWord, w)))

/-- Try the word alternatives in order against r1 (the text after the
leading whitespace): a word matches when it is a prefix and is followed by
at least one whitespace character; the trailing whitespace run is consumed
greedily.  Returns (kind, matched word plus trailing whitespace, rest). -/
def tryWordSep : List (SepKind × String) → List Char → Option (SepKind × List Char × List Char)
  | [], _ => none
  | (k, w) :: ws, r1 =>
    let wl := w.toList
    if wl.isPrefixOf r1 then
      let r2 := r1.drop wl.length
      let ws2 := r2.takeWhile Char.isWhitespace
      if ws2.isEmpty then tryWordSep ws r1
      else some (k, wl ++ ws2, r2.dropWhile Char.isWhitespace)
    else tryWordSep ws r1

/-- Match the whitespace-anchored groups at a position whose first
whitespace character has already been consumed: rest is the input after
that character.  Returns (kind, matched text after that character, rest
after the whole match). -/
def matchWordSep (rest : List Char) : Option (SepKind × List Char × List Char) :=
  let ws1 := rest.takeWhile Char.isWhitespace
  let r1 := rest.dropWhile Char.isWhitespace
  match tryWordSep sepWordTable r1 with
  | some (k, m, rem) => some (k, ws1 ++ m, rem)
  | none => none

theorem tryWordSep_rem_le (L : List (SepKind × String)) (r1 : List Char)
    (k : SepKind) (m rem : List Char) (h : tryWordSep L r1 = some (k, m, rem)) :
    rem.length ≤ r1.length := by
  induction L with
  | nil => simp [tryWordSep] at h
  | cons p ws ih =>
    obtain ⟨kk, w⟩ := p
    unfold tryWordSep at h
    by_cases hpre : (w.toList).isPrefixOf r1
    · simp only [hpre, if_true] at h
      by_cases hws : ((r1.drop w.toList.length).takeWhile Char.isWhitespace).isEmpty
      · simp only [hws, if_true] at h
        exact ih h
      · simp only [hws, if_false, Option.some.injEq, Prod.mk.injEq] at h
        obtain ⟨-, -, rfl⟩ := h
        calc ((r1.drop w.toList.length).dropWhile Char.isWhitespace).length
            ≤ (r1.drop w.toList.length).length := (List.dropWhile_sublist _).length_le
          _ ≤ r1.length := by simp [List.length_drop]
    · simp only [hpre, if_false] at h
      exact ih h

theorem matchWordSep_rem_le (rest : List Char) (k : SepKind) (m rem : List Char)
    (h : matchWordSep rest = some (k, m, rem)) : rem.length ≤ rest.length := by
  unfold matchWordSep at h
  dsimp only at h
  rcases h2 : tryWordSep sepWordTable (rest.dropWhile Char.isWhitespace) with _ | ⟨k', m', rem'⟩
  · rw [h2] at h; simp at h
  · rw [h2] at h
    simp only [Option.some.injEq, Prod.mk.injEq] at h
    obtain ⟨-, -, rfl⟩ := h
    calc rem'.length ≤ (rest.dropWhile Char.isWhitespace).length :=
          tryWordSep_rem_le _ _ _ _ _ h2
      _ ≤ rest.length := (List.dropWhile_sublist _).length_le

/-- One part of the re.split result: content between matches, or the
captured text of the group that matched (the None groups are dropped, as
the source loop skips them). -/
inductive Part where
  | content (s : List Char)
  | sep (k : SepKind) (s : List Char)
deriving DecidableEq, Repr

def Part.text : Part → List Char
  | .content s => s
  | .sep _ s => s

/-- re.split with the combined pattern: scan left to right, at each
position try the punctuation class first, then the whitespace-anchored
word groups; unmatched characters accumulate into content parts.  The
fuel argument is a structural-recursion device only: each step consumes
at least one character, so any fuel of at least the input length gives
the scan semantics (reSplitAux_fuel below), and the exhausted-fuel clause
is consistent with that reading. -/
def reSplitAux : Nat → List Char → List Char → List Part
  | 0, cs, acc => [Part.content (acc.reverse ++ cs)]
  | _ + 1, [], acc => [Part.content acc.reverse]
  | fuel + 1, c :: rest, acc =>
    if c ∈ puncts then
      Part.content acc.reverse :: Part.sep SepKind.punct [c] :: reSplitAux fuel rest []
    else if c.isWhitespace then
      match matchWordSep rest with
      | some (k, m, rem) =>
        Part.content acc.reverse :: Part.sep k (c :: m) :: reSplitAux fuel rem []
      | none => reSplitAux fuel rest (c :: acc)
    else reSplitAux fuel rest (c :: acc)

/-- Any two sufficient fuels give the same scan, so the fuel in
reSplitParts is semantically inert. -/
theorem reSplitAux_fuel : ∀ (n : Nat) (cs : List Char), cs.length ≤ n →
    ∀ f1 f2 acc, cs.length ≤ f1 → cs.length ≤ f2 →
    reSplitAux f1 cs acc = reSplitAux f2 cs acc := by
  intro n
  induction n with
  | zero =>
    intro cs hcs f1 f2 acc _ _
    have hnil : cs = [] := by
      cases cs with
      | nil => rfl
      | cons a t => simp at hcs
    subst hnil
    cases f1 <;> cases f2 <;> simp [reSplitAux]
  | succ n ih =>
    intro cs hcs f1 f2 acc h1 h2
    cases cs with
    | nil => cases f1 <;> cases f2 <;> simp [reSplitAux]
    | cons c rest =>
      cases f1 with
      | zero => simp at h1
      | succ a =>
        cases f2 with
        | zero => simp at h2
        | succ b =>
          have hrest : rest.length ≤ n := by
            simp only [List.length_cons] at hcs
            omega
          have ha : rest.length ≤ a := by
            simp only [List.length_cons] at h1
            omega
          have hb : rest.length ≤ b := by
            simp only [List.length_cons] at h2
            omega
          simp only [reSplitAux]
          by_cases hp : c ∈ puncts
          · rw [if_pos hp, if_pos hp, ih rest hrest a b [] ha hb]
          · rw [if_neg hp, if_neg hp]
            by_cases hw : c.isWhitespace
            · rw [if_pos hw, if_pos hw]
              cases hm : matchWordSep rest with
              | none =>
                simp only [hm]
                exact ih rest hrest a b (c :: acc) ha hb
              | some x =>
                obtain ⟨k, m, rem⟩ := x
                have hrem : rem.length ≤ rest.length :=
                  matchWordSep_rem_le rest k m rem hm
                simp only [hm]
                rw [ih rem (le_trans hrem hrest) a b []
                  (le_trans hrem ha) (le_trans hrem hb)]
            · rw [if_neg hw, if_neg hw]
              exact ih rest hrest a b (c :: acc) ha hb

def reSplitParts (cs : List Char) : List Part :=
  reSplitAux (cs.length + 1) cs []

/-- re.match of the combined pattern against a (stripped) part: succeeds
only when the part starts with a punctuation character or with whitespace
followed by a word alternative and whitespace. -/
def reMatchCombined (s : List Char) : Bool :=
  match s with
  | [] => false
  | c :: rest =>
    if c ∈ puncts then true
    else if c.isWhitespace then (matchWordSep rest).isSome
    else false

/-- Flush of the current phrase: locate it at or after the cursor
(falling back to the cursor on failure) and build the segment. -/
def emitPhrase (cs curPhrase : List Char) (curPos : Nat) : Seg :=
  let start_pos := (pyFind cs curPhrase curPos).getD curPos
  { text := stripL curPhrase
    start := start_pos
    stop := start_pos + curPhrase.length
    type := "phrase"
    level := "primary" }

/-- The part-processing loop of _perform_phrase_segmentation: skip empty
parts, flush at separator parts that re-match the pattern, otherwise join
the stripped part onto the current phrase with a single space. -/
def phraseLoop (cs : List Char) : List Part → Nat → List Char → List Seg
  | [], curPos, curPhrase =>
    if curPhrase.isEmpty then [] else [emitPhrase cs curPhrase curPos]
  | p :: ps, curPos, curPhrase =>
    let s := stripL p.text
    if s.isEmpty then phraseLoop cs ps curPos curPhrase
    else if reMatchCombined s then
      if curPhrase.isEmpty then phraseLoop cs ps curPos curPhrase
      else
        let seg := emitPhrase cs curPhrase curPos
        seg :: phraseLoop cs ps seg.stop []
    else
      phraseLoop cs ps curPos (if curPhrase.isEmpty then s else curPhrase ++ ' ' :: s)

/-- Locate-and-advance loop shared by the fallback and sentence paths: for
each unit text, find it at or after the cursor (cursor on failure), emit,
and advance past it. -/
def locateSegs (cs : List Char) (ty : String) : List (List Char) → Nat → List Seg
  | [], _ => []
  | u :: us, curPos =>
    let start_pos := (pyFind cs u curPos).getD curPos
    { text := u, start := start_pos, stop := start_pos + u.length,
      type := ty, level := "primary" }
      :: locateSegs cs ty us (start_pos + u.length)

/-- Source function _fallback_phrase_segmentation: whole text when at most
3 words, otherwise blocks of words_per_phrase = max 3 (wordCount / 2)
words (the final block taking whatever remains). -/
def fallback_phrase_segmentation (cs : List Char) : List Seg :=
  let words := pySplitWs cs
  if words.length ≤ 3 then
    [{ text := cs, start := 0, stop := cs.length, type := "phrase", level := "primary" }]
  else
    let words_per_phrase := max 3 (words.length / 2)
    let starts := List.range' 0 ((words.length + words_per_phrase - 1) / words_per_phrase) words_per_phrase
    let blocks := starts.map (fun i => joinSpace ((words.drop i).take words_per_phrase))
    locateSegs cs "phrase" blocks 0

/-- Source function _perform_phrase_segmentation: pattern split, loop, and
the word-count fallback when fewer than 2 phrases result. -/
def perform_phrase_segmentation (cs : List Char) : List Seg :=
  let segments := phraseLoop cs (reSplitParts cs) 0 []
  if segments.length < 2 then fallback_phrase_segmentation cs else segments

def isDigitOpt : Option Char → Bool
  | some c => c.isDigit
  | none => false

/-- Sentence splitting of _perform_text_segmentation: split on
(?<!d).(?!d)|[!?。！？], tracking the previous character for the decimal
lookbehind. -/
def splitSentencesAux : Option Char → List Char → List Char → List (List Char)
  | _, [], acc => [acc.reverse]
  | prev, c :: rest, acc =>
    if c ∈ ['!', '?', '。', '！', '？'] then
      acc.reverse :: splitSentencesAux (some c) rest []
    else if c = '.' ∧ isDigitOpt prev = false ∧ isDigitOpt rest.head? = false then
      acc.reverse :: splitSentencesAux (some c) rest []
    else
      splitSentencesAux (some c) rest (c :: acc)

def splitSentenceParts (cs : List Char) : List (List Char) :=
  splitSentencesAux none cs []

/-- Source function _perform_text_segmentation: split into sentences,
strip, skip empties, and locate offsets with the scan cursor. -/
def perform_text_segmentation (cs : List Char) : List Seg :=
  locateSegs cs "sentence"
    (((splitSentenceParts cs).map stripL).filter (fun s => !s.isEmpty)) 0

/-- Count of matches of (?<!d)[.!?。！？](?!d), used by
_is_single_sentence. -/
def countEndingsAux : Option Char → List Char → Nat
  | _, [] => 0
  | prev, c :: rest =>
    if c ∈ ['.', '!', '?', '。', '！', '？'] ∧ isDigitOpt prev = false
        ∧ isDigitOpt rest.head? = false then
      1 + countEndingsAux (some c) rest
    else
      countEndingsAux (some c) rest

/-- Source function _is_single_sentence. -/
def is_single_sentence (cs : List Char) : Bool :=
  let t := stripL cs
  let sentence_endings := countEndingsAux none t
  let word_count := (pySplitWs t).length
  if sentence_endings ≤ 1 ∧ word_count ≤ 20 then true
  else if sentence_endings = 0 then true
  else false

/-- Source function segment_text (the cache layer is an optimization and
is not part of the function semantics). -/
def segment_text (cs : List Char) : List Seg :=
  if is_single_sentence cs then perform_phrase_segmentation cs
  else perform_text_segmentation cs

/-! ## Escalation policy (_should_trigger_claude_feedback) -/

/-- Source function _should_trigger_claude_feedback.  Segments enter only
through their similarity values; the unused low_segments statistic of the
source is omitted. -/
def should_trigger_claude_feedback (overall_similarity : ℚ) (segments : List ℚ)
    (user_understanding original_text : List Char) : Bool :=
  let very_low_segments := (segments.filter (fun s => s < 0.2)).length
  let total_segments := segments.length
  let user_word_count := (pySplitWs user_understanding).length
  let original_word_count := (pySplitWs original_text).length
  let ratio_len : ℚ := (user_word_count : ℚ) / (max original_word_count 1 : ℚ)
  if overall_similarity < 0.25 ∧ user_word_count < 8 then true
  else if (very_low_segments : ℚ) > (total_segments : ℚ) * 0.6 then true
  else if overall_similarity < 0.3 ∧ ( ratio_len < 0.25 ∨ ratio_len > 4.0) then true
  else if pyContains user_understanding (String.toList "详细分析")
      || pyContains (toLowerL user_understanding) (String.toList "detailed analysis") then true
  else false

/-! ## Offset and segmentation lemmas -/

/-- Cursor discipline of the emitted segments: each segment starts at or
after the running cursor, stops at or after it starts, and the cursor
moves to its stop. -/
def segsMono : Nat → List Seg → Prop
  | _, [] => True
  | cur, s :: ss => cur ≤ s.start ∧ s.start ≤ s.stop ∧ segsMono s.stop ss

theorem occAux_ge : ∀ (l pat : List Char) (j p : Nat),
    occAux l pat j = some p → j ≤ p := by
  intro l
  induction l with
  | nil =>
    intro pat j p h
    unfold occAux at h
    by_cases hp : pat.isPrefixOf []
    · rw [if_pos hp] at h
      injection h with h
      omega
    · rw [if_neg hp] at h
      simp at h
  | cons c t ih =>
    intro pat j p h
    unfold occAux at h
    by_cases hp : pat.isPrefixOf (c :: t)
    · rw [if_pos hp] at h
      injection h with h
      omega
    · rw [if_neg hp] at h
      have := ih pat (j + 1) p h
      omega

theorem pyFind_ge (hay pat : List Char) (st p : Nat)
    (h : pyFind hay pat st = some p) : st ≤ p := by
  unfold pyFind at h
  by_cases hs : st ≤ hay.length
  · rw [if_pos hs] at h
    exact occAux_ge _ _ _ _ h
  · rw [if_neg hs] at h
    simp at h

theorem getD_find_ge (cs ph : List Char) (cur : Nat) :
    cur ≤ (pyFind cs ph cur).getD cur := by
  cases h : pyFind cs ph cur with
  | none => simp
  | some p => simpa using pyFind_ge cs ph cur p h

theorem emitPhrase_start_ge (cs ph : List Char) (cur : Nat) :
    cur ≤ (emitPhrase cs ph cur).start :=
  getD_find_ge cs ph cur

theorem emitPhrase_start_le_stop (cs ph : List Char) (cur : Nat) :
    (emitPhrase cs ph cur).start ≤ (emitPhrase cs ph cur).stop :=
  Nat.le_add_right _ _

theorem locateSegs_mono (cs : List Char) (ty : String) :
    ∀ (us : List (List Char)) (cur : Nat), segsMono cur (locateSegs cs ty us cur) := by
  intro us
  induction us with
  | nil => intro cur; trivial
  | cons u us ih =>
    intro cur
    exact ⟨getD_find_ge cs u cur, Nat.le_add_right _ _, ih _⟩

theorem phraseLoop_mono (cs : List Char) :
    ∀ (ps : List Part) (cur : Nat) (ph : List Char),
      segsMono cur (phraseLoop cs ps cur ph) := by
  intro ps
  induction ps with
  | nil =>
    intro cur ph
    unfold phraseLoop
    by_cases he : ph.isEmpty
    · rw [if_pos he]
      trivial
    · rw [if_neg he]
      exact ⟨emitPhrase_start_ge cs ph cur, emitPhrase_start_le_stop cs ph cur, trivial⟩
  | cons p ps ih =>
    intro cur ph
    simp only [phraseLoop]
    by_cases h1 : (stripL p.text).isEmpty
    · rw [if_pos h1]
      exact ih cur ph
    · rw [if_neg h1]
      by_cases h2 : reMatchCombined (stripL p.text)
      · rw [if_pos h2]
        by_cases h3 : ph.isEmpty
        · rw [if_pos h3]
          exact ih cur ph
        · rw [if_neg h3]
          exact ⟨emitPhrase_start_ge cs ph cur, emitPhrase_start_le_stop cs ph cur, ih _ _⟩
      · rw [if_neg h2]
        exact ih cur _

theorem segsMono_props : ∀ (l : List Seg) (cur : Nat), segsMono cur l →
    (∀ s ∈ l, s.start ≤ s.stop) ∧ l.Chain' (fun a b => a.start ≤ b.start) := by
  intro l
  induction l with
  | nil =>
    intro cur _
    exact ⟨by simp, List.chain'_nil⟩
  | cons s ss ih =>
    intro cur h
    obtain ⟨h1, h2, h3⟩ := h
    obtain ⟨hall, hchain⟩ := ih s.stop h3
    refine ⟨?_, ?_⟩
    · intro x hx
      rcases List.mem_cons.mp hx with rfl | hx
      · exact h2
      · exact hall x hx
    · cases ss with
      | nil => simp
      | cons b bs =>
        refine List.chain'_cons.mpr ⟨?_, hchain⟩
        obtain ⟨hb1, hb2, hb3⟩ := h3
        omega

theorem locateSegs_length (cs : List Char) (ty : String) :
    ∀ (us : List (List Char)) (cur : Nat), (locateSegs cs ty us cur).length = us.length := by
  intro us
  induction us with
  | nil => intro cur; rfl
  | cons u us ih =>
    intro cur
    simp only [locateSegs, List.length_cons, ih]

/-! ## Whitespace-only input lemmas -/

theorem dropWhile_ws_nil {cs : List Char} (h : ∀ c ∈ cs, c.isWhitespace) :
    cs.dropWhile Char.isWhitespace = [] :=
  List.dropWhile_eq_nil_iff.mpr h

theorem stripL_ws_nil {cs : List Char} (h : ∀ c ∈ cs, c.isWhitespace) :
    stripL cs = [] := by
  unfold stripL
  rw [dropWhile_ws_nil h]
  rfl

theorem splitOnP_ws_all_nil {cs : List Char} (h : ∀ c ∈ cs, c.isWhitespace) :
    ∀ w ∈ cs.splitOnP Char.isWhitespace, w = [] := by
  induction cs with
  | nil =>
    intro w hw
    simpa using hw
  | cons c t ih =>
    intro w hw
    rw [List.splitOnP_cons] at hw
    rw [if_pos (h c (by simp))] at hw
    rcases List.mem_cons.mp hw with rfl | hw
    · rfl
    · exact ih (fun x hx => h x (List.mem_cons_of_mem c hx)) w hw

theorem pySplitWs_ws_nil {cs : List Char} (h : ∀ c ∈ cs, c.isWhitespace) :
    pySplitWs cs = [] := by
  unfold pySplitWs
  rw [List.filter_eq_nil_iff]
  intro w hw
  rw [splitOnP_ws_all_nil h w hw]
  simp

theorem tryWordSep_base (L : List (SepKind × String)) : tryWordSep L [] = none := by
  induction L with
  | nil => rfl
  | cons p ws ih =>
    obtain ⟨k, w⟩ := p
    unfold tryWordSep
    by_cases hp : (w.toList).isPrefixOf ([] : List Char)
    · rw [if_pos hp]
      simpa using ih
    · rw [if_neg hp]
      exact ih

theorem matchWordSep_ws_none {t : List Char} (h : ∀ c ∈ t, c.isWhitespace) :
    matchWordSep t = none := by
  unfold matchWordSep
  dsimp only
  rw [dropWhile_ws_nil h, tryWordSep_base]

theorem reSplitAux_ws {cs : List Char} (h : ∀ c ∈ cs, c.isWhitespace) :
    ∀ (fuel : Nat) (acc : List Char),
      reSplitAux fuel cs acc = [Part.content (acc.reverse ++ cs)] := by
  induction cs with
  | nil =>
    intro fuel acc
    cases fuel <;> simp [reSplitAux]
  | cons c t ih =>
    intro fuel acc
    cases fuel with
    | zero => simp [reSplitAux]
    | succ f =>
      have hcw : c.isWhitespace := h c (by simp)
      have hnp : ¬ (c ∈ puncts) := by
        intro hc
        unfold puncts at hc
        simp only [List.mem_cons, List.not_mem_nil, or_false] at hc
        rcases hc with rfl | rfl | rfl <;> exact absurd hcw (by decide)
      have hm : matchWordSep t = none :=
        matchWordSep_ws_none (fun x hx => h x (List.mem_cons_of_mem c hx))
      simp only [reSplitAux]
      rw [if_neg hnp, if_pos hcw]
      simp only [hm]
      rw [ih (fun x hx => h x (List.mem_cons_of_mem c hx)) f (c :: acc)]
      simp

/-! ## Association-table lemmas for the profile cache -/

theorem lookup_filter_self (tbl : CacheTable) (k : String) :
    List.lookup k (tbl.filter (fun p => p.1 != k)) = none := by
  induction tbl with
  | nil => rfl
  | cons a t ih =>
    obtain ⟨ka, va⟩ := a
    by_cases h : ka = k
    · subst h
      rw [List.filter_cons_of_neg (by simp)]
      exact ih
    · rw [List.filter_cons_of_pos (by simpa using h)]
      have hbeq : (k == ka) = false := by
        simpa using Ne.symm h
      simp [List.lookup, hbeq, ih]

theorem lookup_none_of_filter (tbl : CacheTable) (k : String)
    (f : String × CacheEntry → Bool) (h : List.lookup k tbl = none) :
    List.lookup k (tbl.filter f) = none := by
  induction tbl with
  | nil => rfl
  | cons a t ih =>
    obtain ⟨ka, va⟩ := a
    simp only [List.lookup] at h
    rcases hbeq : k == ka with _ | _
    · rw [hbeq] at h
      simp only [cond_false] at h  -- hmm may need adjustment
      by_cases hf : f (ka, va)
      · rw [List.filter_cons_of_pos hf]
        simp [List.lookup, hbeq, ih h]
      · rw [List.filter_cons_of_neg hf]
        exact ih h
    · rw [hbeq] at h
      simp at h

theorem lookup_filter_other (tbl : CacheTable) (k k' : String) (h : k ≠ k') :
    List.lookup k (tbl.filter (fun p => p.1 != k')) = List.lookup k tbl := by
  induction tbl with
  | nil => rfl
  | cons a t ih =>
    obtain ⟨ka, va⟩ := a
    by_cases hk : ka = k'
    · subst hk
      rw [List.filter_cons_of_neg (by simp)]
      have hbeq : (k == ka) = false := by simpa using h
      simp [List.lookup, hbeq, ih]
    · rw [List.filter_cons_of_pos (by simpa using hk)]
      cases hbeq : k == ka <;> simp [List.lookup, hbeq, ih]

/-- Absence of a key is preserved by the invalidation loop, which only
ever filters the table. -/
theorem invalidateLoop_get_none (user_id : String) :
    ∀ (ds : List Nat) (tbl : CacheTable) (k : String),
      db_get tbl k = none → db_get (invalidateLoop user_id tbl ds) k = none := by
  intro ds
  induction ds with
  | nil => intro tbl k h; exact h
  | cons d rest ih =>
    intro tbl k h
    unfold invalidateLoop
    dsimp only
    by_cases hd : (db_get tbl (profile_cache_key user_id d)).isSome
    · rw [if_pos hd]
      exact ih _ _ (lookup_none_of_filter _ _ _ h)
    · rw [if_neg hd]
      exact h

/-- Distinct day windows give distinct profile cache keys for a fixed
user. -/
theorem profile_cache_key_ne (user_id : String) {d1 d2 : Nat}
    (h : toString d1 ≠ toString d2) :
    profile_cache_key user_id d1 ≠ profile_cache_key user_id d2 := by
  unfold profile_cache_key
  intro he
  apply h
  have hd := congrArg String.data he
  simp only [String.data_append, List.append_assoc] at hd
  exact String.ext
    (List.append_cancel_left (List.append_cancel_left (List.append_cancel_left hd)))

/-- One unfolding step of the invalidation loop. -/
theorem invalidateLoop_cons (user_id : String) (tbl : CacheTable) (d : Nat)
    (rest : List Nat) :
    invalidateLoop user_id tbl (d :: rest) =
      if (db_get tbl (profile_cache_key user_id d)).isSome then
        invalidateLoop user_id (db_delete tbl (profile_cache_key user_id d)) rest
      else tbl := rfl

/-! ## Claim theorems -/

/-- C1: the escalation decision is a pure boolean function of the overall
similarity, the per-segment similarities, the user understanding and the
original text, true exactly when one of the four documented conditions
holds. -/
theorem escalation_decision_iff (overall_similarity : ℚ) (segments : List ℚ)
    (user_understanding original_text : List Char) :
    should_trigger_claude_feedback overall_similarity segments
        user_understanding original_text = true ↔
      (overall_similarity < 0.25 ∧ (pySplitWs user_understanding).length < 8)
      ∨ (((segments.filter (fun s => s < 0.2)).length : ℚ)
          > (segments.length : ℚ) * 0.6)
      ∨ (overall_similarity < 0.3
          ∧ (((pySplitWs user_understanding).length : ℚ)
                / (max (pySplitWs original_text).length 1 : ℚ) < 0.25
             ∨ ((pySplitWs user_understanding).length : ℚ)
                / (max (pySplitWs original_text).length 1 : ℚ) > 4.0))
      ∨ (pyContains user_understanding (String.toList "详细分析") = true
         ∨ pyContains (toLowerL user_understanding)
             (String.toList "detailed analysis") = true) := by
  unfold should_trigger_claude_feedback
  split_ifs with h1 h2 h3 h4 <;> simp_all [Bool.or_eq_true]

/-- C2 counterexample: a profile cached for the valid 14-day window before
a new record is written is still served afterwards, because invalidation
only touches the 7, 30 and 90 day windows; and even a 30-day cached
profile survives the write when no 7-day entry exists, because the
conditional delete of the missing 7-day key raises and aborts the loop. -/
theorem profile_cache_stale_window_counterexample :
    (get_cached_profile
        (record_analysis_result (cache_user_profile [] "u" 14 "stale-profile" 0)
          "u" "cognitive_u_100_x" "payload" 100) "u" 14 100
      = some "stale-profile"
    ∧ 1 ≤ 14 ∧ 14 ≤ 1000)
    ∧ get_cached_profile
        (record_analysis_result (cache_user_profile [] "u" 30 "stale-30" 0)
          "u" "cognitive_u_100_x" "payload" 100) "u" 30 100
      = some "stale-30" := by
  decide

/-- C2 amended: after a record write, the 7-day cached profile is never
servable (deleted when present, untouched when already absent); the
30-day one is never servable provided the 7-day key existed, and the
90-day one provided both earlier keys existed — a missing earlier key
aborts the conditional-delete loop and leaves the later windows stale. -/
theorem profile_cache_invalidation_reached_windows :
    (∀ (tbl : CacheTable) (user_id record_id payload : String) (now t : Nat),
      get_cached_profile (record_analysis_result tbl user_id record_id payload now)
        user_id 7 t = none)
    ∧ (∀ (tbl : CacheTable) (user_id record_id payload : String) (now t : Nat),
        db_get (db_put tbl record_id ⟨payload, now⟩)
            (profile_cache_key user_id 7) ≠ none →
        get_cached_profile (record_analysis_result tbl user_id record_id payload now)
          user_id 30 t = none)
    ∧ ∀ (tbl : CacheTable) (user_id record_id payload : String) (now t : Nat),
        db_get (db_put tbl record_id ⟨payload, now⟩)
            (profile_cache_key user_id 7) ≠ none →
        db_get (db_put tbl record_id ⟨payload, now⟩)
            (profile_cache_key user_id 30) ≠ none →
        get_cached_profile (record_analysis_result tbl user_id record_id payload now)
          user_id 90 t = none := by
  refine ⟨?_, ?_, ?_⟩
  · intro tbl user_id record_id payload now t
    unfold record_analysis_result invalidate_user_profile_cache get_cached_profile
    set tbl2 := db_put tbl record_id ⟨payload, now⟩ with htbl2
    suffices hn : db_get (invalidateLoop user_id tbl2 [7, 30, 90])
        (profile_cache_key user_id 7) = none by
      rw [hn]
    rw [invalidateLoop_cons]
    by_cases h7 : (db_get tbl2 (profile_cache_key user_id 7)).isSome
    · rw [if_pos h7]
      exact invalidateLoop_get_none _ _ _ _ (lookup_filter_self _ _)
    · rw [if_neg h7]
      exact Option.not_isSome_iff_eq_none.mp h7
  · intro tbl user_id record_id payload now t h7
    unfold record_analysis_result invalidate_user_profile_cache get_cached_profile
    set tbl2 := db_put tbl record_id ⟨payload, now⟩ with htbl2
    suffices hn : db_get (invalidateLoop user_id tbl2 [7, 30, 90])
        (profile_cache_key user_id 30) = none by
      rw [hn]
    rw [invalidateLoop_cons, if_pos (Option.isSome_iff_ne_none.mpr h7),
      invalidateLoop_cons]
    by_cases h30 : (db_get (db_delete tbl2 (profile_cache_key user_id 7))
        (profile_cache_key user_id 30)).isSome
    · rw [if_pos h30]
      exact invalidateLoop_get_none _ _ _ _ (lookup_filter_self _ _)
    · rw [if_neg h30]
      exact Option.not_isSome_iff_eq_none.mp h30
  · intro tbl user_id record_id payload now t h7 h30
    unfold record_analysis_result invalidate_user_profile_cache get_cached_profile
    set tbl2 := db_put tbl record_id ⟨payload, now⟩ with htbl2
    suffices hn : db_get (invalidateLoop user_id tbl2 [7, 30, 90])
        (profile_cache_key user_id 90) = none by
      rw [hn]
    have h30d : (db_get (db_delete tbl2 (profile_cache_key user_id 7))
        (profile_cache_key user_id 30)).isSome := by
      have hne : profile_cache_key user_id 30 ≠ profile_cache_key user_id 7 :=
        profile_cache_key_ne user_id (by decide)
      rw [show db_get (db_delete tbl2 (profile_cache_key user_id 7))
            (profile_cache_key user_id 30)
          = db_get tbl2 (profile_cache_key user_id 30) from
        lookup_filter_other _ _ _ hne]
      exact Option.isSome_iff_ne_none.mpr h30
    rw [invalidateLoop_cons, if_pos (Option.isSome_iff_ne_none.mpr h7),
      invalidateLoop_cons, if_pos h30d, invalidateLoop_cons]
    by_cases h90 : (db_get (db_delete (db_delete tbl2 (profile_cache_key user_id 7))
        (profile_cache_key user_id 30)) (profile_cache_key user_id 90)).isSome
    · rw [if_pos h90]
      exact invalidateLoop_get_none _ _ _ _ (lookup_filter_self _ _)
    · rw [if_neg h90]
      exact Option.not_isSome_iff_eq_none.mp h90

theorem profile_cache_invalidation_reached_windows_witness :
    get_cached_profile (record_analysis_result [] "u" "r" "x" 0) "u" 7 0 = none
    ∧ get_cached_profile (record_analysis_result
        (cache_user_profile (cache_user_profile (cache_user_profile [] "u" 7 "p7" 0)
          "u" 30 "p30" 0) "u" 90 "p90" 0) "u" "r" "x" 0) "u" 30 5 = none :=
  ⟨profile_cache_invalidation_reached_windows.1 [] "u" "r" "x" 0 0,
   profile_cache_invalidation_reached_windows.2.1
     (cache_user_profile (cache_user_profile (cache_user_profile [] "u" 7 "p7" 0)
       "u" 30 "p30" 0) "u" 90 "p90" 0) "u" "r" "x" 0 5 (by decide)⟩

/-- C4 counterexample: the transport-failure fallback is not the same
record as the parse-failure fallback. -/
theorem feedback_fallbacks_differ :
    get_detailed_feedback_from_claude (Except.error "timeout") (fun _ => none)
      ≠ get_detailed_feedback_from_claude (Except.ok "not json") (fun _ => none) := by
  decide

/-- C4 amended: the synthesizer is total (never raises): a transport
failure yields the fixed transport fallback, a parse failure yields the
fixed parse fallback, success returns the parsed record, and both fallbacks
carry cognitive_level understand. -/
theorem detailed_feedback_total_with_fallbacks :
    (∀ (e : String) (parseJson : String → Option FeedbackRecord),
      get_detailed_feedback_from_claude (Except.error e) parseJson
        = transportFallbackRecord)
    ∧ (∀ (s : String) (parseJson : String → Option FeedbackRecord),
        parseJson s = none →
        get_detailed_feedback_from_claude (Except.ok s) parseJson
          = parseFallbackRecord)
    ∧ (∀ (s : String) (parseJson : String → Option FeedbackRecord)
        (fb : FeedbackRecord),
        parseJson s = some fb →
        get_detailed_feedback_from_claude (Except.ok s) parseJson = fb)
    ∧ parseFallbackRecord.cognitive_level = "understand"
    ∧ transportFallbackRecord.cognitive_level = "understand" := by
  refine ⟨fun e p => rfl, fun s p h => ?_, fun s p fb h => ?_, rfl, rfl⟩
  · simp only [get_detailed_feedback_from_claude, h]
  · simp only [get_detailed_feedback_from_claude, h]

theorem detailed_feedback_total_with_fallbacks_witness :
    get_detailed_feedback_from_claude (Except.ok "x") (fun _ => none)
        = parseFallbackRecord
    ∧ get_detailed_feedback_from_claude (Except.ok "x")
        (fun _ => some transportFallbackRecord) = transportFallbackRecord :=
  ⟨detailed_feedback_total_with_fallbacks.2.1 "x" _ rfl,
   detailed_feedback_total_with_fallbacks.2.2.1 "x" _ transportFallbackRecord rfl⟩

/-- C7: the tier bands have inclusive lower bounds 0.75, 0.55, 0.35, 0.25,
and the assigned tier is monotone non-decreasing in the similarity. -/
theorem similarity_tier_bands :
    (∀ s : ℚ,
      ((classify_similarity s).1 = "excellent" ↔ 0.75 ≤ s)
      ∧ ((classify_similarity s).1 = "good" ↔ 0.55 ≤ s ∧ s < 0.75)
      ∧ ((classify_similarity s).1 = "fair" ↔ 0.35 ≤ s ∧ s < 0.55)
      ∧ ((classify_similarity s).1 = "partial" ↔ 0.25 ≤ s ∧ s < 0.35)
      ∧ ((classify_similarity s).1 = "poor" ↔ s < 0.25))
    ∧ ∀ s t : ℚ, s ≤ t →
        tierRank (classify_similarity s).1 ≤ tierRank (classify_similarity t).1 := by
  constructor
  · intro s
    unfold classify_similarity
    split_ifs with h1 h2 h3 h4 <;>
      refine ⟨?_, ?_, ?_, ?_, ?_⟩ <;> constructor <;> intro hh <;>
        first
          | rfl
          | exact absurd hh (by decide)
          | exact (by linarith)
          | exact ⟨by linarith, by linarith⟩
  · intro s t hst
    unfold classify_similarity
    split_ifs <;> first | decide | (exfalso; linarith)

theorem similarity_tier_bands_witness :
    tierRank (classify_similarity 0.25).1 ≤ tierRank (classify_similarity 0.75).1 :=
  similarity_tier_bands.2 0.25 0.75 (by norm_num)

/-- C8: cosine similarity returns 0 for a zero-magnitude (all-zero) vector
on either side, and otherwise equals the dot product divided by the product
of magnitudes; the division is guarded and the function is total. -/
theorem cosine_similarity_guarded :
    (∀ v1 v2 : List ℝ, v1.length = v2.length →
      ((∀ x ∈ v1, x = 0) ∨ (∀ x ∈ v2, x = 0)) →
      calculate_cosine_similarity v1 v2 = 0)
    ∧ ∀ v1 v2 : List ℝ, v1.length = v2.length →
        magnitudeV v1 ≠ 0 → magnitudeV v2 ≠ 0 →
        calculate_cosine_similarity v1 v2 * (magnitudeV v1 * magnitudeV v2)
          = dot_product v1 v2 := by
  have hmagzero : ∀ v : List ℝ, (∀ x ∈ v, x = 0) → magnitudeV v = 0 := by
    intro v hv
    unfold magnitudeV
    rw [List.sum_eq_zero, Real.sqrt_zero]
    intro x hx
    obtain ⟨a, ha, rfl⟩ := List.mem_map.mp hx
    rw [hv a ha]
    ring
  constructor
  · intro v1 v2 _ hzero
    have hmag : magnitudeV v1 = 0 ∨ magnitudeV v2 = 0 := by
      rcases hzero with hz | hz
      · exact Or.inl (hmagzero v1 hz)
      · exact Or.inr (hmagzero v2 hz)
    unfold calculate_cosine_similarity
    dsimp only
    rw [if_pos hmag]
  · intro v1 v2 _ h1 h2
    unfold calculate_cosine_similarity
    dsimp only
    rw [if_neg (by tauto)]
    exact div_mul_cancel₀ _ (mul_ne_zero h1 h2)

theorem cosine_similarity_guarded_witness :
    calculate_cosine_similarity [0] [1] = 0
    ∧ calculate_cosine_similarity [1] [1]
        * (magnitudeV [1] * magnitudeV [1]) = dot_product [1] [1] :=
  ⟨cosine_similarity_guarded.1 [0] [1] rfl (Or.inl (by intro x hx; simpa using hx)),
   cosine_similarity_guarded.2 [1] [1] rfl
     (by norm_num [magnitudeV]) (by norm_num [magnitudeV])⟩

/-- C9: the improvement rate is 0 for fewer than 5 records, and otherwise
the difference of the mean similarity of the first (recent) half, split at
length / 2, and the mean of the remaining (older) half, times 100, rounded
to one decimal place. -/
theorem improvement_rate_spec :
    (∀ records : List CognitiveRecord, records.length < 5 →
      calculate_improvement_rate records = 0)
    ∧ ∀ records : List CognitiveRecord, 5 ≤ records.length →
        calculate_improvement_rate records =
          pyRound1 ((meanSimilarity (records.take (records.length / 2))
            - meanSimilarity (records.drop (records.length / 2))) * 100) := by
  constructor
  · intro records h
    unfold calculate_improvement_rate
    rw [if_pos h]
  · intro records h
    unfold calculate_improvement_rate meanSimilarity
    rw [if_neg (by omega)]

theorem improvement_rate_spec_witness :
    calculate_improvement_rate [] = 0
    ∧ calculate_improvement_rate [⟨1⟩, ⟨1⟩, ⟨0⟩, ⟨0⟩, ⟨0⟩] =
        pyRound1 ((meanSimilarity ([⟨1⟩, ⟨1⟩, ⟨0⟩, ⟨0⟩, ⟨0⟩].take 2)
          - meanSimilarity ([⟨1⟩, ⟨1⟩, ⟨0⟩, ⟨0⟩, ⟨0⟩].drop 2)) * 100) :=
  ⟨improvement_rate_spec.1 [] (by decide),
   improvement_rate_spec.2 [⟨1⟩, ⟨1⟩, ⟨0⟩, ⟨0⟩, ⟨0⟩] (by decide)⟩

/-- C3: evaluation at the failing input.  The conjunction separator "and"
is not used as a split point: the produced phrase "cats and dogs" retains
it as an interior token, and the only effective split point is the comma. -/
theorem phrase_separator_retention_eval :
    (segment_text (String.toList "cats and dogs, birds sing")).map (fun s => s.text)
      = [String.toList "cats and dogs", String.toList "birds sing"]
    ∧ String.toList "and" ∈ pySplitWs (String.toList "cats and dogs") := by
  decide

/-- C5 counterexample: the empty text does not yield an empty segment
list; the word-count fallback returns it whole as one phrase segment. -/
theorem empty_text_segment_counterexample :
    segment_text (String.toList "")
      = [{ text := [], start := 0, stop := 0, type := "phrase", level := "primary" }]
    ∧ segment_text (String.toList "") ≠ [] := by
  decide

/-- C6 counterexample: on a text whose normalized first phrase is found at
a later occurrence, the final segment's stop offset 24 exceeds the text
length 17. -/
theorem segment_offset_bound_counterexample :
    (segment_text (String.toList "a and  b, a and b")).map (fun s => s.stop)
      = [17, 24]
    ∧ (String.toList "a and  b, a and b").length = 17
    ∧ ¬ (24 ≤ 17) := by
  decide

/-- C10 counterexample: with 7 words the fallback produces blocks of 3, 3
and 1 words, so the final block has fewer than 3 words. -/
theorem fallback_last_block_counterexample :
    (perform_phrase_segmentation (String.toList "a b c d e f g")).map
        (fun s => (pySplitWs s.text).length)
      = [3, 3, 1] := by
  decide

/-- C6 amended: every segment satisfies start ≤ stop and the segments come
in non-decreasing start order (starts are Nat, hence non-negative); the
stop ≤ length bound of the original claim is dropped, as the
counterexample shows. -/
theorem segment_offsets_monotone (t : String) :
    (∀ s ∈ segment_text t.toList, s.start ≤ s.stop)
    ∧ (segment_text t.toList).Chain' (fun a b => a.start ≤ b.start) := by
  have hmono : segsMono 0 (segment_text t.toList) := by
    unfold segment_text
    by_cases h : is_single_sentence t.toList
    · rw [if_pos h]
      unfold perform_phrase_segmentation
      dsimp only
      by_cases h2 : (phraseLoop t.toList (reSplitParts t.toList) 0 []).length < 2
      · rw [if_pos h2]
        unfold fallback_phrase_segmentation
        dsimp only
        by_cases h3 : (pySplitWs t.toList).length ≤ 3
        · rw [if_pos h3]
          exact ⟨Nat.zero_le _, Nat.zero_le _, trivial⟩
        · rw [if_neg h3]
          exact locateSegs_mono _ _ _ _
      · rw [if_neg h2]
        exact phraseLoop_mono _ _ _ _
    · rw [if_neg h]
      exact locateSegs_mono _ _ _ _
  exact segsMono_props _ 0 hmono

/-- C5 amended: an empty or whitespace-only text yields exactly one phrase
segment covering the whole input (via the word-count fallback), not an
empty list. -/
theorem whitespace_only_single_segment (t : String)
    (h : ∀ c ∈ t.toList, c.isWhitespace) :
    segment_text t.toList =
      [{ text := t.toList, start := 0, stop := t.toList.length,
         type := "phrase", level := "primary" }] := by
  have hstrip : stripL t.toList = [] := stripL_ws_nil h
  have hsplit : pySplitWs t.toList = [] := pySplitWs_ws_nil h
  have hsingle : is_single_sentence t.toList = true := by
    unfold is_single_sentence
    rw [hstrip]
    decide
  have hparts : reSplitParts t.toList = [Part.content t.toList] := by
    unfold reSplitParts
    rw [reSplitAux_ws h _ _]
    simp
  have hloop : phraseLoop t.toList [Part.content t.toList] 0 [] = [] := by
    simp only [phraseLoop, Part.text]
    rw [hstrip]
    simp [phraseLoop]
  unfold segment_text
  rw [if_pos hsingle]
  unfold perform_phrase_segmentation
  dsimp only
  rw [hparts, hloop]
  simp only [List.length_nil]
  rw [if_pos (by omega)]
  unfold fallback_phrase_segmentation
  dsimp only
  rw [hsplit]
  simp

theorem whitespace_only_single_segment_witness :
    segment_text (String.toList " ") =
      [{ text := [' '], start := 0, stop := 1,
         type := "phrase", level := "primary" }] :=
  whitespace_only_single_segment " " (by decide)

/-- C10 amended: the single-sentence path never returns an empty segment
list: when the pattern split yields fewer than 2 phrases, the fallback
returns the whole text as one segment for at most 3 words, and otherwise
at least one word block (the final block may hold fewer than 3 words). -/
theorem single_sentence_nonempty :
    (∀ t : String, is_single_sentence t.toList = true →
      1 ≤ (segment_text t.toList).length)
    ∧ (∀ cs : List Char, (pySplitWs cs).length ≤ 3 →
        fallback_phrase_segmentation cs =
          [{ text := cs, start := 0, stop := cs.length,
             type := "phrase", level := "primary" }])
    ∧ ∀ cs : List Char, 1 ≤ (fallback_phrase_segmentation cs).length := by
  have hfb3 : ∀ cs : List Char, (pySplitWs cs).length ≤ 3 →
      fallback_phrase_segmentation cs =
        [{ text := cs, start := 0, stop := cs.length,
           type := "phrase", level := "primary" }] := by
    intro cs h
    unfold fallback_phrase_segmentation
    dsimp only
    rw [if_pos h]
  have hfb : ∀ cs : List Char, 1 ≤ (fallback_phrase_segmentation cs).length := by
    intro cs
    unfold fallback_phrase_segmentation
    dsimp only
    by_cases h : (pySplitWs cs).length ≤ 3
    · rw [if_pos h]
      simp
    · rw [if_neg h]
      rw [locateSegs_length, List.length_map, List.length_range']
      have h3 : 3 ≤ max 3 ((pySplitWs cs).length / 2) := le_max_left _ _
      rw [Nat.le_div_iff_mul_le (by omega)]
      omega
  refine ⟨?_, hfb3, hfb⟩
  intro t ht
  unfold segment_text
  rw [if_pos ht]
  unfold perform_phrase_segmentation
  dsimp only
  by_cases h2 : (phraseLoop t.toList (reSplitParts t.toList) 0 []).length < 2
  · rw [if_pos h2]
    exact hfb _
  · rw [if_neg h2]
    omega

theorem single_sentence_nonempty_witness :
    1 ≤ (segment_text (String.toList "")).length
    ∧ fallback_phrase_segmentation [] =
        [{ text := [], start := 0, stop := 0,
           type := "phrase", level := "primary" }] :=
  ⟨single_sentence_nonempty.1 "" (by decide),
   single_sentence_nonempty.2.1 [] (by decide)⟩

end WordMunch
